import Mathlib

/-!
Verification of `fetch_scivis.py`, a small command-line script that lists and
fetches scientific-visualization datasets from a remote JSON catalog.

The script is shallowly embedded below:
  * catalog entries (Python dicts produced by `json.loads`) become the
    inductive type `JVal` of JSON values (numbers are modelled as integers,
    which covers the integral dimension/size data the script manipulates);
  * `json.dumps(meta, indent=4)` becomes `dumps` (character-level, with the
    exact indentation layout CPython produces for values whose strings need
    no escaping);
  * `json.loads` becomes the fuel-indexed recursive-descent parser `loads`;
  * the filesystem becomes a partial map `FS` from filenames to file data,
    the network a partial map `Net` from URLs to response bodies (`none`
    models a transport failure, i.e. a `requests` exception);
  * each phase of the script (argument parsing, listing, resolution,
    metadata persistence, volume fetch) becomes a pure function, with the
    uncaught Python exceptions modelled as `Option`/error tags in `RunOut`.
-/

namespace FetchScivis

/-- JSON values as decoded by `json.loads` (objects keep insertion order,
matching Python dicts built from JSON text).  Numbers are restricted to
integers, which is what the script's size arithmetic consumes. -/
inductive JVal where
  | jnull : JVal
  | jbool : Bool → JVal
  | jnum : Int → JVal
  | jstr : String → JVal
  | jarr : List JVal → JVal
  | jobj : List (String × JVal) → JVal

/-- Big-endian decimal digit characters of a positive number, by repeated
division; structural recursion on the fuel keeps it kernel-computable. -/
def natCharsAux : Nat → Nat → List Char
  | 0, _ => []
  | fuel + 1, n =>
      if n = 0 then [] else natCharsAux fuel (n / 10) ++ [Nat.digitChar (n % 10)]

/-- Decimal digit characters (big-endian) of a natural number, as Python's
`str`/`json.dumps` print it. -/
def natChars (n : Nat) : List Char :=
  if n = 0 then ['0'] else natCharsAux (n + 1) n

/-- Decimal character rendering of an integer. -/
def intChars (n : Int) : List Char :=
  if n < 0 then '-' :: natChars n.natAbs else natChars n.natAbs

/-- Decimal string rendering of an integer (Python `str` on an int). -/
def intStr (n : Int) : String := String.mk (intChars n)

/-- Indentation: `n` space characters. -/
def sp (n : Nat) : List Char := List.replicate n ' '

mutual

/-- Characters of `json.dumps(v, indent=4)` at nesting level `lvl`,
for values whose strings need no escaping. -/
def dumpsC : JVal → Nat → List Char
  | .jnull, _ => ['n', 'u', 'l', 'l']
  | .jbool true, _ => ['t', 'r', 'u', 'e']
  | .jbool false, _ => ['f', 'a', 'l', 's', 'e']
  | .jnum n, _ => intChars n
  | .jstr s, _ => '"' :: (s.data ++ ['"'])
  | .jarr [], _ => ['[', ']']
  | .jarr (x :: xs), lvl =>
      '[' :: '\n' :: (sp ((lvl + 1) * 4) ++
        (itemsC x xs (lvl + 1) ++ ('\n' :: (sp (lvl * 4) ++ [']']))))
  | .jobj [], _ => ['\x7b', '\x7d']
  | .jobj (f :: fs), lvl =>
      '\x7b' :: '\n' :: (sp ((lvl + 1) * 4) ++
        (fieldsC f fs (lvl + 1) ++ ('\n' :: (sp (lvl * 4) ++ ['\x7d']))))
termination_by v _ => sizeOf v
decreasing_by all_goals (simp_wf; try omega)

/-- Characters of a nonempty array body: items separated by `",\n" ++ indent`. -/
def itemsC : JVal → List JVal → Nat → List Char
  | x, [], lvl => dumpsC x lvl
  | x, y :: ys, lvl =>
      dumpsC x lvl ++ (',' :: '\n' :: (sp (lvl * 4) ++ itemsC y ys lvl))
termination_by x xs _ => sizeOf x + sizeOf xs
decreasing_by all_goals (simp_wf; try omega)

/-- Characters of a nonempty object body: `"key": value` pairs separated by
`",\n" ++ indent`. -/
def fieldsC : (String × JVal) → List (String × JVal) → Nat → List Char
  | (k, v), [], lvl => '"' :: (k.data ++ ('"' :: ':' :: ' ' :: dumpsC v lvl))
  | (k, v), f :: fs, lvl =>
      ('"' :: (k.data ++ ('"' :: ':' :: ' ' :: dumpsC v lvl))) ++
        (',' :: '\n' :: (sp (lvl * 4) ++ fieldsC f fs lvl))
termination_by f fs _ => sizeOf f + sizeOf fs
decreasing_by all_goals (simp_wf; try omega)

end

/-- The string `json.dumps(v, indent=4)` (the form the script both prints and
writes to the metadata file). -/
def dumps (v : JVal) : String := String.mk (dumpsC v 0)

/-- JSON insignificant whitespace. -/
def isWs (c : Char) : Bool := c == ' ' || c == '\n' || c == '\t' || c == '\r'

/-- Drop leading JSON whitespace. -/
def skipWs : List Char → List Char
  | [] => []
  | c :: cs => if isWs c then skipWs cs else c :: cs

/-- Consume a literal character sequence (used for `null`/`true`/`false`). -/
def dropLit : List Char → List Char → Option (List Char)
  | [], rest => some rest
  | p :: ps, c :: cs => if c == p then dropLit ps cs else none
  | _ :: _, [] => none

/-- Greedily accumulate decimal digits, base-10 style, returning the value and
the unconsumed remainder. -/
def parseDigitsAux : List Char → Nat → Nat × List Char
  | [], acc => (acc, [])
  | c :: cs, acc =>
      if c.isDigit then parseDigitsAux cs (acc * 10 + (c.toNat - 48))
      else (acc, c :: cs)

/-- Parse a JSON integer (optional minus sign, then at least one digit). -/
def parseNum : List Char → Option (Int × List Char)
  | [] => none
  | c :: cs =>
      if c == '-' then
        match cs with
        | [] => none
        | d :: ds =>
            if d.isDigit then
              let p := parseDigitsAux ds (d.toNat - 48)
              some (-(p.1 : Int), p.2)
            else none
      else if c.isDigit then
        let p := parseDigitsAux cs (c.toNat - 48)
        some ((p.1 : Int), p.2)
      else none

/-- Parse the body of a JSON string after the opening quote, up to and
including the closing quote.  Escape sequences are not modelled (the
serializer above never produces them for the well-formed values considered
here), so a backslash fails the parse. -/
def parseStringBody : List Char → Option (List Char × List Char)
  | [] => none
  | c :: cs =>
      if c == '"' then some ([], cs)
      else if c == '\\' then none
      else
        match parseStringBody cs with
        | none => none
        | some p => some (c :: p.1, p.2)

mutual

/-- Fuel-indexed JSON value parser (the recursive core of `json.loads`):
skip whitespace, then dispatch on the first character.  Every call in the
mutual block decreases the fuel, so the recursion is structural. -/
def parseJ : Nat → List Char → Option (JVal × List Char)
  | 0, _ => none
  | fuel + 1, input => parseVal fuel (skipWs input)

/-- Parse one JSON value whose first character is already at the head. -/
def parseVal : Nat → List Char → Option (JVal × List Char)
  | 0, _ => none
  | _ + 1, [] => none
  | fuel + 1, c :: cs =>
      if c == 'n' then
        match dropLit ['u', 'l', 'l'] cs with
        | some rest => some (.jnull, rest)
        | none => none
      else if c == 't' then
        match dropLit ['r', 'u', 'e'] cs with
        | some rest => some (.jbool true, rest)
        | none => none
      else if c == 'f' then
        match dropLit ['a', 'l', 's', 'e'] cs with
        | some rest => some (.jbool false, rest)
        | none => none
      else if c == '"' then
        match parseStringBody cs with
        | some p => some (.jstr (String.mk p.1), p.2)
        | none => none
      else if c == '[' then
        match skipWs cs with
        | c2 :: r2 =>
            if c2 == ']' then some (.jarr [], r2)
            else
              match parseItems fuel cs with
              | some p => some (.jarr p.1, p.2)
              | none => none
        | [] =>
            match parseItems fuel cs with
            | some p => some (.jarr p.1, p.2)
            | none => none
      else if c == '\x7b' then
        match skipWs cs with
        | c2 :: r2 =>
            if c2 == '\x7d' then some (.jobj [], r2)
            else
              match parseFields fuel cs with
              | some p => some (.jobj p.1, p.2)
              | none => none
        | [] =>
            match parseFields fuel cs with
            | some p => some (.jobj p.1, p.2)
            | none => none
      else
        match parseNum (c :: cs) with
        | some p => some (.jnum p.1, p.2)
        | none => none

/-- Parse a nonempty comma-separated item list followed by `]`. -/
def parseItems : Nat → List Char → Option (List JVal × List Char)
  | 0, _ => none
  | fuel + 1, input =>
      match parseJ fuel input with
      | none => none
      | some (v, r) =>
          match skipWs r with
          | [] => none
          | c :: r2 =>
              if c == ',' then
                match parseItems fuel r2 with
                | none => none
                | some p => some (v :: p.1, p.2)
              else if c == ']' then some ([v], r2)
              else none

/-- Parse a nonempty comma-separated `"key": value` list followed by `}`. -/
def parseFields : Nat → List Char → Option (List (String × JVal) × List Char)
  | 0, _ => none
  | fuel + 1, input =>
      match skipWs input with
      | [] => none
      | c :: r1 =>
          if c == '"' then
            match parseStringBody r1 with
            | none => none
            | some (k, r2) =>
                match skipWs r2 with
                | [] => none
                | c2 :: r3 =>
                    if c2 == ':' then
                      match parseJ fuel r3 with
                      | none => none
                      | some (v, r4) =>
                          match skipWs r4 with
                          | [] => none
                          | c3 :: r5 =>
                              if c3 == ',' then
                                match parseFields fuel r5 with
                                | none => none
                                | some p => some ((String.mk k, v) :: p.1, p.2)
                              else if c3 == '\x7d' then
                                some ([(String.mk k, v)], r5)
                              else none
                    else none
          else none

end

/-- The function `json.loads`: parse a complete JSON document; fail if
anything but whitespace follows the value.  The fuel `s.length + 1` is
sufficient for every document `dumps` produces (proved below). -/
def loads (s : String) : Option JVal :=
  match parseJ (s.data.length + 1) s.data with
  | some (v, r) => if skipWs r = [] then some v else none
  | none => none

/-- A JSON-friendly character: printable ASCII, not a quote, not a
backslash.  `json.dumps` writes such characters verbatim. -/
def charOk (c : Char) : Bool :=
  32 ≤ c.toNat && c.toNat ≤ 126 && !(c == '"') && !(c == '\\')

/-- A string `json.dumps` serializes verbatim (no escape sequences). -/
def strOk (s : String) : Bool := s.data.all charOk

mutual

/-- Well-formed JSON value: every string (key or value) needs no escaping.
On such values the serializer above coincides with CPython's
`json.dumps(·, indent=4)` and the round-trip theorem below applies. -/
def wfJ : JVal → Bool
  | .jnull => true
  | .jbool _ => true
  | .jnum _ => true
  | .jstr s => strOk s
  | .jarr xs => wfL xs
  | .jobj fs => wfF fs
termination_by v => sizeOf v
decreasing_by all_goals (simp_wf; try omega)

/-- All elements well-formed. -/
def wfL : List JVal → Bool
  | [] => true
  | x :: xs => wfJ x && wfL xs
termination_by xs => sizeOf xs
decreasing_by all_goals (simp_wf; try omega)

/-- All keys serializable verbatim and all values well-formed. -/
def wfF : List (String × JVal) → Bool
  | [] => true
  | (k, v) :: fs => strOk k && wfJ v && wfF fs
termination_by fs => sizeOf fs
decreasing_by all_goals (simp_wf; try omega)

end

/-- No leading digit: a decimal literal followed by such a remainder is
parsed back exactly (the greedy digit scan stops). -/
def numSafe : List Char → Bool
  | [] => true
  | c :: _ => !c.isDigit

/-! ## The script itself -/

/-- Line 24: `x['name'].lower().replace(' ', '_')`.  Character-wise ASCII
lowering plus space-to-underscore substitution (CPython's `str.lower` is
Unicode-aware, but the two agree on the catalog's ASCII names). -/
def normalized (s : String) : String :=
  String.mk (s.data.map (fun c => if c == ' ' then '_' else c.toLower))

/-- Line 37: `os.path.basename(url)` — everything after the last `/`
(the whole string when there is no `/`). -/
def basename (p : String) : String :=
  String.mk ((p.data.reverse.takeWhile (fun c => !(c == '/'))).reverse)

/-- Python dict indexing `d[k]` on a JSON object's field list (keys are
unique in a dict, so first-match lookup is exact). -/
def getField (fields : List (String × JVal)) (k : String) : Option JVal :=
  match fields.find? (fun p => p.1 == k) with
  | some p => some p.2
  | none => none

/-- The string `x['name']`; `none` models the uncaught `KeyError` /
`AttributeError` a malformed record raises. -/
def recName (x : JVal) : Option String :=
  match x with
  | .jobj fs =>
      match getField fs "name" with
      | some (.jstr s) => some s
      | _ => none
  | _ => none

/-- The string `meta['url']`; `none` models the uncaught `KeyError`. -/
def recUrl (x : JVal) : Option String :=
  match x with
  | .jobj fs =>
      match getField fs "url" with
      | some (.jstr s) => some s
      | _ => none
  | _ => none

/-- Nonempty all-digit character list to its decimal value (the digit-string
acceptance core of Python `int(str)`). -/
def parseAllDigits (l : List Char) : Option Nat :=
  if !l.isEmpty && l.all Char.isDigit then
    some (l.foldl (fun a c => a * 10 + (c.toNat - 48)) 0) else none

/-- Python `int` applied to a string: optional sign followed by at least one
decimal digit (underscore separators and surrounding whitespace, which
CPython also tolerates, are not modelled); `none` is the fatal
`ValueError`. -/
def parseIntStr (s : String) : Option Int :=
  match s.data with
  | [] => none
  | c :: cs =>
      if c == '-' then
        match parseAllDigits cs with
        | some m => some (-(m : Int))
        | none => none
      else if c == '+' then
        match parseAllDigits cs with
        | some m => some ((m : Int))
        | none => none
      else
        match parseAllDigits (c :: cs) with
        | some m => some ((m : Int))
        | none => none

/-- Line 25: `int(d)` on a JSON-decoded value: ints pass through, booleans
are 0/1 (Python `bool` is an `int`), decimal strings are parsed, anything
else is a fatal `TypeError`/`ValueError` (`none`). -/
def pyInt : JVal → Option Int
  | .jnum n => some n
  | .jbool b => some (if b then 1 else 0)
  | .jstr s => parseIntStr s
  | _ => none

/-- Line 10: `sizeof = {'uint8': 1, 'uint16': 2, 'int16': 2, 'float32': 4,
'float64': 8}`. -/
def sizeofTable : List (String × Nat) :=
  [("uint8", 1), ("uint16", 2), ("int16", 2), ("float32", 4), ("float64", 8)]

/-- Dict lookup `sizeof[t]`; `none` models the fatal `KeyError`
(the spec's `UnknownTypeError`). -/
def sizeofGet (t : String) : Option Nat :=
  match sizeofTable.find? (fun p => p.1 == t) with
  | some p => some p.2
  | none => none

/-- Line 25: `[int(d) for d in x['size']]`; the comprehension raises (and so
yields `none`) as soon as any element fails `int()`. -/
def mapPyInt : List JVal → Option (List Int)
  | [] => some []
  | x :: xs =>
      match pyInt x, mapPyInt xs with
      | some n, some ns => some (n :: ns)
      | _, _ => none

/-- Which of the three format strings of line 28 is printed, together with
the exact rational value the `{…:.0f}` placeholder would round:
`lt1` stands for the literal `'(<1 MB)'`, `mb v` for `f'({v:.0f} MB)'`,
`gb v` for `f'({v:.0f} GB)'`. -/
inductive SizeRendering where
  | lt1 : SizeRendering
  | mb : ℚ → SizeRendering
  | gb : ℚ → SizeRendering
deriving DecidableEq

/-- Line 28: `f'({size/1024:.0f} GB)' if size > 1024 else f'({size:.0f} MB)'
if size > 1 else '(<1 MB)'`. -/
def renderSize (size : ℚ) : SizeRendering :=
  if size > 1024 then .gb (size / 1024)
  else if size > 1 then .mb size
  else .lt1

/-- The size-formatting policy in the spec's words, with the lower boundary
amended to match the code: `(<1 MB)` up to and including exactly 1 MB, the
numeric MB form strictly above 1 and up to 1024, the GB form above 1024.
Stated separately from `renderSize` (which is translated from line 28) so
the two can be proved to coincide. -/
def specRender (q : ℚ) : SizeRendering :=
  if q ≤ 1 then .lt1
  else if q ≤ 1024 then .mb q
  else .gb (q / 1024)

/-- Lines 24–28 for a single catalog record: the normalized name and the
size rendering the listing prints for it, or `none` when the record makes
the iteration raise (missing/ill-typed fields, bad `int()`, unknown element
type, fewer than three dimensions). -/
def recordLine (x : JVal) : Option (String × SizeRendering) :=
  match x with
  | .jobj fs =>
      match getField fs "name" with
      | some (.jstr nm) =>
          match getField fs "size" with
          | some (.jarr sz) =>
              match mapPyInt sz with
              | some (d0 :: d1 :: d2 :: _) =>
                  match getField fs "type" with
                  | some (.jstr t) =>
                      match sizeofGet t with
                      | some w =>
                          some (normalized nm,
                            renderSize (((d0 * d1 * d2 * (w : Int) : Int) : ℚ) / 1048576))
                      | none => none
                  | _ => none
              | _ => none
          | _ => none
      | _ => none
  | _ => none

/-- Lines 21–29 (list mode): process `index.values()` in catalog order,
emitting one line per record; the Boolean is `false` when an uncaught
exception aborted the listing (the already-emitted lines stay printed). -/
def doList : List JVal → List (String × SizeRendering) × Bool
  | [] => ([], true)
  | x :: rest =>
      match recordLine x with
      | none => ([], false)
      | some l =>
          let p := doList rest
          (l :: p.1, p.2)

/-! ## Filesystem, network, and the fetch pipeline -/

/-- Contents of a file in the working directory. -/
inductive FileData where
  | text : String → FileData
  | bin : List Nat → FileData

/-- The current working directory: filename to contents. -/
def FS : Type := String → Option FileData

/-- The network: URL to response body; `none` is a transport failure
(an uncaught `requests` exception). -/
def Net : Type := String → Option (List Nat)

/-- Outcome of a (partial) run: resulting filesystem, payload HTTP requests
issued, messages printed, and the uncaught error that aborted the run
(`none` on success). -/
structure RunOut where
  fs : FS
  requests : List String
  output : List String
  err : Option String

/-- Result of `parser.parse_args()`. -/
structure Args where
  do_list : Bool
  dataset : Option String
deriving DecidableEq

/-- Lines 12–16: argparse with a *non-required* mutually exclusive group:
supplying both `-l` and `-d` is a parse error; supplying neither is
accepted (`do_list = False`, `dataset = None`). -/
def parseArgs (listFlag : Bool) (datasetArg : Option String) : Except String Args :=
  if listFlag && datasetArg.isSome then
    .error "argument -d/--dataset: not allowed with argument -l/--list"
  else .ok ⟨listFlag, datasetArg⟩

/-- The comparison of line 31 for one record: does
`x['name'].lower().replace(' ', '_') == args.dataset` hold?  A record whose
`name` access raises gives `none`; comparing a string to `None` is `False`
in Python, hence the `Option.some` on the left of `==`. -/
def matchKey (x : JVal) (dataset : Option String) : Option Bool :=
  match recName x with
  | some n => some (some (normalized n) == dataset)
  | none => none

/-- Line 31, the list comprehension
`[x for x in index.values() if x['name'].lower().replace(' ', '_') == args.dataset]`:
builds the whole filtered list, raising (outer `none`) on the first record
whose `name` access raises. -/
def filterMeta : List JVal → Option String → Option (List JVal)
  | [], _ => some []
  | x :: rest, d =>
      match matchKey x d with
      | none => none
      | some b =>
          match filterMeta rest d with
          | none => none
          | some t => some (if b then x :: t else t)

/-- Line 31, `meta = [...][0]` (the Dataset Resolver): outer `none` is a
crash on a malformed record; `some none` is the `IndexError` of `[0]` on an
empty match list (the spec's `NotFoundError`); `some (some r)` is the first
match in catalog order. -/
def resolve (catalog : List JVal) (dataset : Option String) : Option (Option JVal) :=
  (filterMeta catalog dataset).map List.head?

/-- Lines 34–35 (the Metadata Persister): `open(args.dataset + ".json", "w")`
then write `json.dumps(meta, indent=4)` — mode `"w"` truncates, so any
existing file of that name is overwritten unconditionally. -/
def persistMeta (fs : FS) (dataset : String) (meta : JVal) : FS :=
  fun f => if f = dataset ++ ".json" then some (.text (dumps meta)) else fs f

/-- Skip message of line 45. -/
def skipMsg (url : String) : String :=
  "File " ++ basename url ++ " already exists, not re-downloading"

/-- Progress message of line 39. -/
def fetchMsg (url : String) : String := "Fetching volume from " ++ url

/-- Lines 37–45 (the Volume Fetcher): if a file named `basename(url)`
already exists, print the skip message and do nothing else; otherwise issue
one GET against `url` and write the full response body to that filename
(a transport failure aborts before any write). -/
def fetchVolume (fs : FS) (net : Net) (url : String) : RunOut :=
  let vf := basename url
  match fs vf with
  | some _ => ⟨fs, [], [skipMsg url], none⟩
  | none =>
      match net url with
      | none => ⟨fs, [url], [fetchMsg url], some "TransportError"⟩
      | some data =>
          ⟨fun f => if f = vf then some (.bin data) else fs f, [url],
            [fetchMsg url], none⟩

/-- Lines 31–45 (fetch mode): resolve, print and persist the metadata, then
fetch the volume.  Error tags follow the spec's taxonomy: `"NotFoundError"`
is the `IndexError` of line 31 on an empty match list, `"TypeError"` a crash
on a malformed record, `"KeyError"` a record without `url`. -/
def fetchMode (fs₀ : FS) (net : Net) (catalog : List JVal)
    (dataset : Option String) : RunOut :=
  match resolve catalog dataset with
  | none => ⟨fs₀, [], [], some "TypeError"⟩
  | some none => ⟨fs₀, [], [], some "NotFoundError"⟩
  | some (some meta) =>
      match dataset with
      | none => ⟨fs₀, [], [], some "TypeError"⟩
      | some ds =>
          let fs₁ := persistMeta fs₀ ds meta
          match recUrl meta with
          | none => ⟨fs₁, [], [dumps meta], some "KeyError"⟩
          | some url =>
              let r := fetchVolume fs₁ net url
              ⟨r.fs, r.requests, dumps meta :: r.output, r.err⟩

/-- The whole script after the catalog has been decoded: parse the CLI
arguments (line 16, before any network traffic), then dispatch on
`args.do_list` (line 21).  In list mode only the names are recorded in
`output`; the per-record renderings are `doList`'s to report. -/
def mainRun (listFlag : Bool) (datasetArg : Option String) (catalog : List JVal)
    (fs₀ : FS) (net : Net) : RunOut :=
  match parseArgs listFlag datasetArg with
  | .error e => ⟨fs₀, [], [], some e⟩
  | .ok a =>
      if a.do_list then
        let p := doList catalog
        ⟨fs₀, [], "Available datasets:" :: p.1.map Prod.fst,
          if p.2 then none else some "ListingAborted"⟩
      else fetchMode fs₀ net catalog a.dataset

/-- A catalog record with the given name, `size` array, element type and
payload URL (the four fields the script reads). -/
def mkRec (name : String) (size : List JVal) (t url : String) : JVal :=
  .jobj [("name", .jstr name), ("size", .jarr size),
    ("type", .jstr t), ("url", .jstr url)]

/-- Sample record: a typical well-formed catalog entry
(normalized name `foo_bar`, 16 MiB of uint8 voxels). -/
def fooRec : JVal :=
  mkRec "Foo Bar" [.jnum 256, .jnum 256, .jnum 256] "uint8"
    "https://host/foo_bar.raw"

/-- Sample record whose byte size is exactly 1 MiB
(1024 × 1024 × 1 × 1 byte = 1048576 bytes). -/
def oneMBRec : JVal :=
  mkRec "One MB" [.jnum 1024, .jnum 1024, .jnum 1] "uint8"
    "https://host/one_mb.raw"

/-- Sample record with an element type missing from the byte-width table. -/
def badTypeRec : JVal :=
  mkRec "Bad Type" [.jnum 1, .jnum 1, .jnum 1] "int32" "https://host/bad.raw"

/-- Sample record whose normalized name collides with `fooRec`'s. -/
def fooDupRec : JVal :=
  mkRec "FOO Bar" [.jnum 8, .jnum 8, .jnum 8] "uint16"
    "https://host/foo_bar_2.raw"

/-- Sample record that never matches the datasets queried below. -/
def otherRec : JVal :=
  mkRec "Other" [.jnum 4, .jnum 4, .jnum 4] "float32" "https://host/other.raw"

/-- An empty working directory. -/
def emptyFS : FS := fun _ => none

/-- A working directory already holding `foo_bar.raw`. -/
def fsWithFile : FS :=
  fun f => if f = "foo_bar.raw" then some (.bin [1, 2]) else none

/-- A network on which every request fails (transport error). -/
def noNet : Net := fun _ => none

/-- A network answering every GET with the three-byte body `[7, 7, 7]`. -/
def oneNet : Net := fun _ => some [7, 7, 7]

mutual

/-- Fuel needed by `parseVal` for a value (the parser's recursion depth). -/
def reqV : JVal → Nat
  | .jarr (x :: xs) => reqI x xs + 1
  | .jobj (f :: fs) => reqF f fs + 1
  | _ => 1
termination_by v => sizeOf v
decreasing_by all_goals (simp_wf; try omega)

/-- Fuel needed by `parseItems` for a nonempty item list. -/
def reqI : JVal → List JVal → Nat
  | x, [] => reqV x + 2
  | x, y :: ys => max (reqV x + 2) (reqI y ys + 1)
termination_by x xs => sizeOf x + sizeOf xs
decreasing_by all_goals (simp_wf; try omega)

/-- Fuel needed by `parseFields` for a nonempty field list. -/
def reqF : (String × JVal) → List (String × JVal) → Nat
  | (_, v), [] => reqV v + 2
  | (_, v), f :: fs => max (reqV v + 2) (reqF f fs + 1)
termination_by f fs => sizeOf f + sizeOf fs
decreasing_by all_goals (simp_wf; try omega)

end

/-! ## Character and digit lemmas -/

theorem beq_false_of_isDigit {c x : Char} (h : c.isDigit = true)
    (hx : x.isDigit = false) : (c == x) = false := by
  cases hbeq : (c == x) with
  | false => rfl
  | true =>
      have hcx : c = x := eq_of_beq hbeq
      rw [hcx] at h
      rw [h] at hx
      cases hx

theorem digitChar_isDigit {d : Nat} (h : d < 10) :
    (Nat.digitChar d).isDigit = true := by
  interval_cases d <;> decide

theorem digitChar_toNat {d : Nat} (h : d < 10) :
    (Nat.digitChar d).toNat - 48 = d := by
  interval_cases d <;> decide

theorem digitChar_not_ws {d : Nat} (h : d < 10) :
    isWs (Nat.digitChar d) = false := by
  interval_cases d <;> decide

theorem natCharsAux_eq (fuel : Nat) :
    ∀ n : Nat, n ≤ fuel →
      natCharsAux fuel n = (Nat.digits 10 n).reverse.map Nat.digitChar := by
  induction fuel with
  | zero =>
      intro n hn
      interval_cases n
      simp [natCharsAux]
  | succ fuel ih =>
      intro n hn
      by_cases h0 : n = 0
      · subst h0; simp [natCharsAux]
      · have hpos : 0 < n := Nat.pos_of_ne_zero h0
        have hdig := Nat.digits_def' (b := 10) (by norm_num) hpos
        have hle : n / 10 ≤ fuel := by
          have := Nat.div_lt_self hpos (show 1 < 10 by norm_num)
          omega
        rw [natCharsAux, if_neg h0, hdig, ih (n / 10) hle]
        simp [List.reverse_cons]

theorem natChars_eq (n : Nat) :
    natChars n =
      if n = 0 then ['0'] else (Nat.digits 10 n).reverse.map Nat.digitChar := by
  by_cases h0 : n = 0
  · simp [natChars, h0]
  · rw [natChars, if_neg h0, if_neg h0, natCharsAux_eq (n + 1) n (by omega)]

theorem natChars_all_digit (n : Nat) :
    ∀ c ∈ natChars n, c.isDigit = true := by
  intro c hc
  rw [natChars_eq] at hc
  by_cases h0 : n = 0
  · rw [if_pos h0] at hc
    simp at hc
    rw [hc]; decide
  · rw [if_neg h0] at hc
    simp at hc
    obtain ⟨d, hd, rfl⟩ := hc
    exact digitChar_isDigit (Nat.digits_lt_base (by norm_num) hd)

theorem natChars_ne_nil (n : Nat) : natChars n ≠ [] := by
  rw [natChars_eq]
  by_cases h0 : n = 0
  · simp [h0]
  · rw [if_neg h0]
    simp [Nat.digits_ne_nil_iff_ne_zero.mpr h0]

theorem parseDigitsAux_digits (ds : List Nat) :
    ∀ acc, (∀ d ∈ ds, d < 10) → ∀ rest : List Char, numSafe rest = true →
      parseDigitsAux (ds.map Nat.digitChar ++ rest) acc =
        (ds.foldl (fun a d => a * 10 + d) acc, rest) := by
  induction ds with
  | nil =>
      intro acc _ rest hrest
      cases rest with
      | nil => rfl
      | cons c cs =>
          have hc : c.isDigit = false := by
            simp [numSafe] at hrest
            exact hrest
          simp [parseDigitsAux, hc]
  | cons d dt ih =>
      intro acc hlt rest hrest
      have hd : d < 10 := hlt d (List.mem_cons_self d dt)
      have hdig : (Nat.digitChar d).isDigit = true := digitChar_isDigit hd
      simp only [List.map_cons, List.cons_append, parseDigitsAux, hdig, if_true]
      rw [digitChar_toNat hd]
      exact ih (acc * 10 + d) (fun x hx => hlt x (List.mem_cons_of_mem d hx)) rest hrest

theorem foldl_digits_reverse (n : Nat) :
    (Nat.digits 10 n).reverse.foldl (fun a d => a * 10 + d) 0 = n := by
  induction n using Nat.strong_induction_on with
  | _ n ih =>
      by_cases h0 : n = 0
      · simp [h0]
      · have hpos : 0 < n := Nat.pos_of_ne_zero h0
        rw [Nat.digits_def' (b := 10) (by norm_num) hpos]
        rw [List.reverse_cons, List.foldl_append,
          ih (n / 10) (Nat.div_lt_self hpos (by norm_num))]
        have := Nat.div_add_mod n 10
        simp
        omega

theorem natChars_as_map (m : Nat) :
    ∃ ds : List Nat, natChars m = ds.map Nat.digitChar ∧ ds ≠ [] ∧
      (∀ d ∈ ds, d < 10) ∧ ds.foldl (fun a d => a * 10 + d) 0 = m := by
  by_cases h0 : m = 0
  · exact ⟨[0], by simp [natChars_eq, h0]; rfl, by simp, by simp, by simp [h0]⟩
  · refine ⟨(Nat.digits 10 m).reverse, ?_, ?_, ?_, foldl_digits_reverse m⟩
    · rw [natChars_eq, if_neg h0]
    · simp [Nat.digits_ne_nil_iff_ne_zero.mpr h0]
    · intro d hd
      rw [List.mem_reverse] at hd
      exact Nat.digits_lt_base (by norm_num) hd

theorem foldl_map_digitChar (ds : List Nat) :
    ∀ acc, (∀ d ∈ ds, d < 10) →
      (ds.map Nat.digitChar).foldl (fun a c => a * 10 + (c.toNat - 48)) acc =
        ds.foldl (fun a d => a * 10 + d) acc := by
  induction ds with
  | nil => intro acc _; rfl
  | cons d dt ih =>
      intro acc hlt
      simp only [List.map_cons, List.foldl_cons]
      rw [digitChar_toNat (hlt d (List.mem_cons_self d dt))]
      exact ih _ (fun x hx => hlt x (List.mem_cons_of_mem d hx))

theorem parseDigitsAux_natChars (m : Nat) (rest : List Char)
    (hrest : numSafe rest = true) :
    ∃ d : Char, ∃ dt : List Char, natChars m ++ rest = d :: dt ∧
      d.isDigit = true ∧ parseDigitsAux dt (d.toNat - 48) = (m, rest) := by
  obtain ⟨ds, hmap, hne, hlt, hfold⟩ := natChars_as_map m
  cases ds with
  | nil => cases hne rfl
  | cons d0 dt0 =>
      refine ⟨Nat.digitChar d0, dt0.map Nat.digitChar ++ rest, by simp [hmap], ?_, ?_⟩
      · exact digitChar_isDigit (hlt d0 (List.mem_cons_self d0 dt0))
      · rw [digitChar_toNat (hlt d0 (List.mem_cons_self d0 dt0))]
        rw [parseDigitsAux_digits dt0 d0
          (fun x hx => hlt x (List.mem_cons_of_mem d0 hx)) rest hrest]
        rw [List.foldl_cons] at hfold
        simp at hfold
        rw [hfold]

theorem parseNum_natChars (m : Nat) (rest : List Char)
    (hrest : numSafe rest = true) :
    parseNum (natChars m ++ rest) = some ((m : Int), rest) := by
  obtain ⟨d, dt, heq, hdig, haux⟩ := parseDigitsAux_natChars m rest hrest
  rw [heq]
  have hne : (d == '-') = false := beq_false_of_isDigit hdig (by decide)
  simp only [parseNum, hne, hdig, if_true, Bool.false_eq_true, if_false]
  rw [haux]

theorem parseNum_intChars (n : Int) (rest : List Char)
    (hrest : numSafe rest = true) :
    parseNum (intChars n ++ rest) = some (n, rest) := by
  by_cases hneg : n < 0
  · rw [intChars, if_pos hneg]
    obtain ⟨d, dt, heq, hdig, haux⟩ := parseDigitsAux_natChars n.natAbs rest hrest
    simp only [List.cons_append, heq]
    simp only [parseNum, show (('-' : Char) == '-') = true from rfl, if_true, hdig]
    rw [haux]
    have : ((n.natAbs : Nat) : Int) = -n := by omega
    rw [this]
    simp
  · rw [intChars, if_neg hneg]
    have : ((n.natAbs : Nat) : Int) = n := by omega
    rw [← this]
    exact parseNum_natChars n.natAbs rest hrest

theorem parseAllDigits_natChars (m : Nat) :
    parseAllDigits (natChars m) = some m := by
  obtain ⟨ds, hmap, hne, hlt, hfold⟩ := natChars_as_map m
  have hall : (natChars m).all Char.isDigit = true := by
    rw [List.all_eq_true]
    exact natChars_all_digit m
  have hnempty : (natChars m).isEmpty = false := by
    cases h : natChars m with
    | nil => cases natChars_ne_nil m h
    | cons a l => rfl
  rw [parseAllDigits, hnempty, hall]
  simp only [Bool.not_false, Bool.true_and, if_true]
  rw [hmap, foldl_map_digitChar ds 0 hlt, hfold]

theorem parseIntStr_intStr (n : Int) : parseIntStr (intStr n) = some n := by
  have hdata : (intStr n).data = intChars n := rfl
  rw [parseIntStr, hdata]
  by_cases hneg : n < 0
  · rw [intChars, if_pos hneg]
    simp only [show (('-' : Char) == '-') = true from rfl, if_true]
    rw [parseAllDigits_natChars]
    have : ((n.natAbs : Nat) : Int) = -n := by omega
    simp [this]
  · rw [intChars, if_neg hneg]
    cases hnc : natChars n.natAbs with
    | nil => cases natChars_ne_nil n.natAbs hnc
    | cons c cs =>
        have hdig : c.isDigit = true := by
          apply natChars_all_digit n.natAbs
          rw [hnc]
          exact List.mem_cons_self c cs
        have h1 : (c == '-') = false := beq_false_of_isDigit hdig (by decide)
        have h2 : (c == '+') = false := beq_false_of_isDigit hdig (by decide)
        simp only [h1, h2, Bool.false_eq_true, if_false]
        rw [← hnc, parseAllDigits_natChars]
        have : ((n.natAbs : Nat) : Int) = n := by omega
        simp [this]

/-! ## Whitespace and string lemmas -/

theorem mk_data_eq (s : String) : String.mk s.data = s := rfl

theorem skipWs_cons_not {c : Char} (h : isWs c = false) (l : List Char) :
    skipWs (c :: l) = c :: l := by
  simp [skipWs, h]

theorem skipWs_ws_append {pre : List Char} (h : pre.all isWs = true)
    (l : List Char) : skipWs (pre ++ l) = skipWs l := by
  induction pre with
  | nil => rfl
  | cons c cs ih =>
      simp only [List.all_cons, Bool.and_eq_true] at h
      simp only [List.cons_append, skipWs, h.1, if_true]
      exact ih h.2

theorem ws_not_digit {c : Char} (h : isWs c = true) : c.isDigit = false := by
  simp only [isWs, Bool.or_eq_true, beq_iff_eq] at h
  rcases h with ((h | h) | h) | h <;> rw [h] <;> decide

theorem numSafe_ws_append {post : List Char} (h : post.all isWs = true)
    {c : Char} (hc : c.isDigit = false) (l : List Char) :
    numSafe (post ++ c :: l) = true := by
  cases post with
  | nil => simp [numSafe, hc]
  | cons p ps =>
      simp only [List.all_cons, Bool.and_eq_true] at h
      simp [numSafe, ws_not_digit h.1]

theorem charOk_not_quote {c : Char} (h : charOk c = true) :
    (c == '"') = false ∧ (c == '\\') = false := by
  simp only [charOk, Bool.and_eq_true, Bool.not_eq_true'] at h
  exact ⟨h.1.2, h.2⟩

theorem parseStringBody_ok (l : List Char) (h : l.all charOk = true)
    (rest : List Char) : parseStringBody (l ++ '"' :: rest) = some (l, rest) := by
  induction l with
  | nil => rfl
  | cons c cs ih =>
      simp only [List.all_cons, Bool.and_eq_true] at h
      obtain ⟨h1, h2⟩ := charOk_not_quote h.1
      simp only [List.cons_append, parseStringBody, h1, h2, Bool.false_eq_true,
        if_false, List.append_eq, ih h.2]

theorem intChars_head (n : Int) :
    ∃ c t, intChars n = c :: t ∧ isWs c = false ∧ (c == ']') = false ∧
      (c == '\x7d') = false := by
  by_cases hneg : n < 0
  · exact ⟨'-', natChars n.natAbs, by rw [intChars, if_pos hneg], by decide,
      by decide, by decide⟩
  · cases hnc : natChars n.natAbs with
    | nil => cases natChars_ne_nil n.natAbs hnc
    | cons c cs =>
        have hdig : c.isDigit = true := by
          apply natChars_all_digit n.natAbs
          rw [hnc]; exact List.mem_cons_self c cs
        refine ⟨c, cs, by rw [intChars, if_neg hneg, hnc], ?_, ?_, ?_⟩
        · cases hws : isWs c with
          | false => rfl
          | true => rw [ws_not_digit hws] at hdig; cases hdig
        · exact beq_false_of_isDigit hdig (by decide)
        · exact beq_false_of_isDigit hdig (by decide)

theorem dumpsC_head (v : JVal) (lvl : Nat) :
    ∃ c t, dumpsC v lvl = c :: t ∧ isWs c = false ∧ (c == ']') = false ∧
      (c == '\x7d') = false := by
  cases v with
  | jnull => exact ⟨'n', _, by rw [dumpsC], by decide, by decide, by decide⟩
  | jbool b =>
      cases b with
      | true => exact ⟨'t', _, by rw [dumpsC], by decide, by decide, by decide⟩
      | false => exact ⟨'f', _, by rw [dumpsC], by decide, by decide, by decide⟩
  | jnum n =>
      obtain ⟨c, t, hct, h1, h2, h3⟩ := intChars_head n
      exact ⟨c, t, by rw [dumpsC, hct], h1, h2, h3⟩
  | jstr s => exact ⟨'"', _, by rw [dumpsC], by decide, by decide, by decide⟩
  | jarr xs =>
      cases xs with
      | nil => exact ⟨'[', _, by rw [dumpsC], by decide, by decide, by decide⟩
      | cons x xs' =>
          exact ⟨'[', _, by rw [dumpsC], by decide, by decide, by decide⟩
  | jobj fs =>
      cases fs with
      | nil => exact ⟨'\x7b', _, by rw [dumpsC], by decide, by decide, by decide⟩
      | cons f fs' =>
          exact ⟨'\x7b', _, by rw [dumpsC], by decide, by decide, by decide⟩

theorem skipWs_pre_dumpsC {pre : List Char} (h : pre.all isWs = true)
    (v : JVal) (lvl : Nat) (rest : List Char) :
    skipWs (pre ++ (dumpsC v lvl ++ rest)) = dumpsC v lvl ++ rest := by
  obtain ⟨c, t, hct, hws, _, _⟩ := dumpsC_head v lvl
  rw [skipWs_ws_append h, hct, List.cons_append, skipWs_cons_not hws]

theorem two_le_reqI (x : JVal) (xs : List JVal) : 2 ≤ reqI x xs := by
  cases xs with
  | nil => rw [reqI]; omega
  | cons y ys => rw [reqI]; omega

theorem two_le_reqF (f : String × JVal) (fs : List (String × JVal)) :
    2 ≤ reqF f fs := by
  cases fs with
  | nil => obtain ⟨k, v⟩ := f; rw [reqF]; omega
  | cons g gs => obtain ⟨k, v⟩ := f; rw [reqF]; omega

theorem one_le_reqV (v : JVal) : 1 ≤ reqV v := by
  cases v with
  | jarr xs => cases xs <;> simp [reqV]
  | jobj fs => cases fs <;> simp [reqV]
  | jnull => simp [reqV]
  | jbool b => simp [reqV]
  | jnum n => simp [reqV]
  | jstr s => simp [reqV]

theorem sp_all_ws (k : Nat) : (sp k).all isWs = true := by
  rw [List.all_eq_true]
  intro c hc
  rw [sp, List.mem_replicate] at hc
  rw [hc.2]
  decide

theorem nl_sp_all_ws (k : Nat) : ('\n' :: sp k).all isWs = true := by
  simp only [List.all_cons, Bool.and_eq_true]
  exact ⟨by decide, sp_all_ws k⟩

theorem num_head_guards {c : Char} (h : c.isDigit = true ∨ c = '-') :
    (c == 'n') = false ∧ (c == 't') = false ∧ (c == 'f') = false ∧
      (c == '"') = false ∧ (c == '[') = false ∧ (c == '\x7b') = false := by
  rcases h with h | h
  · exact ⟨beq_false_of_isDigit h (by decide), beq_false_of_isDigit h (by decide),
      beq_false_of_isDigit h (by decide), beq_false_of_isDigit h (by decide),
      beq_false_of_isDigit h (by decide), beq_false_of_isDigit h (by decide)⟩
  · subst h
    exact ⟨by decide, by decide, by decide, by decide, by decide, by decide⟩

theorem intChars_head_kind (n : Int) :
    ∃ c t, intChars n = c :: t ∧ (c.isDigit = true ∨ c = '-') := by
  by_cases hneg : n < 0
  · exact ⟨'-', natChars n.natAbs, by rw [intChars, if_pos hneg], Or.inr rfl⟩
  · cases hnc : natChars n.natAbs with
    | nil => cases natChars_ne_nil n.natAbs hnc
    | cons c cs =>
        refine ⟨c, cs, by rw [intChars, if_neg hneg, hnc], Or.inl ?_⟩
        apply natChars_all_digit n.natAbs
        rw [hnc]; exact List.mem_cons_self c cs

/-- Round-trip of the serializer through the parser: with enough fuel,
`parseItems`/`parseFields`/`parseVal`/`parseJ` parse back exactly what
`itemsC`/`fieldsC`/`dumpsC` produced, for well-formed values, tolerating
leading/trailing whitespace and any non-digit-headed remainder. -/
theorem parse_roundtrip : ∀ n : Nat,
    (∀ (x : JVal) (xs : List JVal) (lvl : Nat) (pre post rest : List Char),
      wfJ x = true → wfL xs = true →
      pre.all isWs = true → post.all isWs = true → reqI x xs ≤ n →
      parseItems n (pre ++ (itemsC x xs lvl ++ (post ++ ']' :: rest))) =
        some (x :: xs, rest)) ∧
    (∀ (k : String) (v : JVal) (fs : List (String × JVal)) (lvl : Nat)
        (pre post rest : List Char),
      strOk k = true → wfJ v = true → wfF fs = true →
      pre.all isWs = true → post.all isWs = true → reqF (k, v) fs ≤ n →
      parseFields n (pre ++ (fieldsC (k, v) fs lvl ++ (post ++ '\x7d' :: rest))) =
        some ((k, v) :: fs, rest)) ∧
    (∀ (v : JVal) (lvl : Nat) (rest : List Char),
      wfJ v = true → numSafe rest = true → reqV v ≤ n →
      parseVal n (dumpsC v lvl ++ rest) = some (v, rest)) ∧
    (∀ (v : JVal) (lvl : Nat) (pre rest : List Char),
      wfJ v = true → pre.all isWs = true → numSafe rest = true →
      reqV v + 1 ≤ n →
      parseJ n (pre ++ (dumpsC v lvl ++ rest)) = some (v, rest)) := by
  intro n
  induction n using Nat.strong_induction_on with
  | _ n IH =>
  refine ⟨?_, ?_, ?_, ?_⟩
  · -- parseItems
    intro x xs lvl pre post rest hwx hwxs hpre hpost hreq
    cases n with
    | zero => have := two_le_reqI x xs; omega
    | succ m =>
    cases xs with
    | nil =>
        rw [reqI] at hreq
        have hPJ := (IH m (by omega)).2.2.2 x lvl pre (post ++ ']' :: rest) hwx
          hpre (numSafe_ws_append hpost (by decide) rest) (by omega)
        rw [itemsC]
        simp only [parseItems]
        rw [hPJ]
        simp only [skipWs_ws_append hpost,
          skipWs_cons_not (show isWs ']' = false by decide),
          show ((']' : Char) == ',') = false from rfl,
          show ((']' : Char) == ']') = true from rfl,
          Bool.false_eq_true, if_false, if_true]
    | cons y ys =>
        rw [reqI] at hreq
        simp only [wfL, Bool.and_eq_true] at hwxs
        rw [itemsC]
        have harr : pre ++ ((dumpsC x lvl ++
            (',' :: '\n' :: (sp (lvl * 4) ++ itemsC y ys lvl))) ++
              (post ++ ']' :: rest)) =
            pre ++ (dumpsC x lvl ++
              (',' :: ('\n' :: sp (lvl * 4)) ++
                (itemsC y ys lvl ++ (post ++ ']' :: rest)))) := by
          simp [List.append_assoc]
        rw [harr]
        have hPJ := (IH m (by omega)).2.2.2 x lvl pre
          (',' :: ('\n' :: sp (lvl * 4)) ++
            (itemsC y ys lvl ++ (post ++ ']' :: rest)))
          hwx hpre (by simp [numSafe]) (by omega)
        simp only [parseItems]
        rw [hPJ]
        simp only [List.cons_append,
          skipWs_cons_not (show isWs ',' = false by decide),
          show ((',' : Char) == ',') = true from rfl, if_true]
        have hPI := (IH m (by omega)).1 y ys lvl ('\n' :: sp (lvl * 4))
          post rest hwxs.1 hwxs.2 (nl_sp_all_ws _) hpost (by omega)
        simp only [List.cons_append] at hPI
        rw [hPI]
  · -- parseFields
    intro k v fs lvl pre post rest hk hwv hwfs hpre hpost hreq
    cases n with
    | zero => have := two_le_reqF (k, v) fs; omega
    | succ m =>
    cases fs with
    | nil =>
        rw [reqF] at hreq
        rw [fieldsC]
        have harr : pre ++ (('"' :: (k.data ++ ('"' :: ':' :: ' ' :: dumpsC v lvl))) ++
            (post ++ '\x7d' :: rest)) =
            pre ++ ('"' :: (k.data ++
              ('"' :: ':' :: (' ' :: (dumpsC v lvl ++ (post ++ '\x7d' :: rest)))))) := by
          simp [List.append_assoc]
        rw [harr]
        simp only [parseFields]
        rw [skipWs_ws_append hpre, skipWs_cons_not (show isWs '"' = false by decide)]
        simp only [show (('"' : Char) == '"') = true from rfl, if_true]
        rw [parseStringBody_ok k.data hk]
        simp only [skipWs_cons_not (show isWs ':' = false by decide),
          show ((':' : Char) == ':') = true from rfl, if_true]
        have hPJ := (IH m (by omega)).2.2.2 v lvl [' ']
          (post ++ '\x7d' :: rest) hwv (by decide)
          (numSafe_ws_append hpost (by decide) rest) (by omega)
        simp only [List.singleton_append] at hPJ
        rw [hPJ]
        simp only [skipWs_ws_append hpost,
          skipWs_cons_not (show isWs '\x7d' = false by decide),
          show (('\x7d' : Char) == ',') = false from rfl,
          show (('\x7d' : Char) == '\x7d') = true from rfl,
          Bool.false_eq_true, if_false, if_true]
    | cons g gs =>
        obtain ⟨k2, v2⟩ := g
        rw [reqF] at hreq
        simp only [wfF, Bool.and_eq_true] at hwfs
        rw [fieldsC]
        have harr : pre ++ ((('"' :: (k.data ++ ('"' :: ':' :: ' ' :: dumpsC v lvl))) ++
            (',' :: '\n' :: (sp (lvl * 4) ++ fieldsC (k2, v2) gs lvl))) ++
              (post ++ '\x7d' :: rest)) =
            pre ++ ('"' :: (k.data ++ ('"' :: ':' :: (' ' ::
              (dumpsC v lvl ++ (',' :: ('\n' :: sp (lvl * 4)) ++
                (fieldsC (k2, v2) gs lvl ++ (post ++ '\x7d' :: rest)))))))) := by
          simp [List.append_assoc]
        rw [harr]
        simp only [parseFields]
        rw [skipWs_ws_append hpre, skipWs_cons_not (show isWs '"' = false by decide)]
        simp only [show (('"' : Char) == '"') = true from rfl, if_true]
        rw [parseStringBody_ok k.data hk]
        simp only [skipWs_cons_not (show isWs ':' = false by decide),
          show ((':' : Char) == ':') = true from rfl, if_true]
        have hPJ := (IH m (by omega)).2.2.2 v lvl [' ']
          (',' :: ('\n' :: sp (lvl * 4)) ++
            (fieldsC (k2, v2) gs lvl ++ (post ++ '\x7d' :: rest)))
          hwv (by decide) (by simp [numSafe]) (by omega)
        simp only [List.singleton_append] at hPJ
        rw [hPJ]
        simp only [List.cons_append,
          skipWs_cons_not (show isWs ',' = false by decide),
          show ((',' : Char) == ',') = true from rfl, if_true]
        have hPF := (IH m (by omega)).2.1 k2 v2 gs lvl ('\n' :: sp (lvl * 4))
          post rest hwfs.1.1 hwfs.1.2 hwfs.2 (nl_sp_all_ws _) hpost (by omega)
        simp only [List.cons_append] at hPF
        rw [hPF]
  · -- parseVal
    intro v lvl rest hwv hrest hreq
    cases n with
    | zero => have := one_le_reqV v; omega
    | succ m =>
    cases v with
    | jnull => rw [dumpsC]; rfl
    | jbool b => cases b <;> (rw [dumpsC]; rfl)
    | jnum nn =>
        obtain ⟨c, t, hct, hkind⟩ := intChars_head_kind nn
        obtain ⟨g1, g2, g3, g4, g5, g6⟩ := num_head_guards hkind
        rw [dumpsC, hct, List.cons_append]
        simp only [parseVal, g1, g2, g3, g4, g5, g6, Bool.false_eq_true, if_false]
        rw [← List.cons_append, ← hct, parseNum_intChars nn rest hrest]
    | jstr s =>
        rw [dumpsC]
        have : ('"' :: (s.data ++ ['"'])) ++ rest =
            '"' :: (s.data ++ ('"' :: rest)) := by simp
        rw [this]
        simp only [parseVal, show (('"' : Char) == 'n') = false from rfl,
          show (('"' : Char) == 't') = false from rfl,
          show (('"' : Char) == 'f') = false from rfl,
          show (('"' : Char) == '"') = true from rfl,
          Bool.false_eq_true, if_false, if_true]
        rw [parseStringBody_ok s.data (by rw [wfJ] at hwv; exact hwv)]
    | jarr xs =>
        cases xs with
        | nil =>
            rw [dumpsC]
            simp only [List.cons_append, List.nil_append]
            simp only [parseVal, show (('[' : Char) == 'n') = false from rfl,
              show (('[' : Char) == 't') = false from rfl,
              show (('[' : Char) == 'f') = false from rfl,
              show (('[' : Char) == '"') = false from rfl,
              show (('[' : Char) == '[') = true from rfl,
              Bool.false_eq_true, if_false, if_true]
            rw [skipWs_cons_not (show isWs ']' = false by decide)]
            simp only [show ((']' : Char) == ']') = true from rfl, if_true]
        | cons x xs' =>
            rw [reqV] at hreq
            rw [wfJ, wfL, Bool.and_eq_true] at hwv
            rw [dumpsC]
            have harr : ('[' :: '\n' :: (sp ((lvl + 1) * 4) ++
                (itemsC x xs' (lvl + 1) ++ ('\n' :: (sp (lvl * 4) ++ [']']))))) ++ rest =
                '[' :: (('\n' :: sp ((lvl + 1) * 4)) ++
                  (itemsC x xs' (lvl + 1) ++
                    (('\n' :: sp (lvl * 4)) ++ (']' :: rest)))) := by
              simp [List.append_assoc]
            rw [harr]
            simp only [parseVal, show (('[' : Char) == 'n') = false from rfl,
              show (('[' : Char) == 't') = false from rfl,
              show (('[' : Char) == 'f') = false from rfl,
              show (('[' : Char) == '"') = false from rfl,
              show (('[' : Char) == '[') = true from rfl,
              Bool.false_eq_true, if_false, if_true]
            obtain ⟨c0, t0, hct, hws0, hrb0, _⟩ := dumpsC_head x (lvl + 1)
            have hchead : ∃ t1, itemsC x xs' (lvl + 1) = c0 :: t1 := by
              cases xs' with
              | nil => exact ⟨t0, by rw [itemsC, hct]⟩
              | cons y ys => exact ⟨t0 ++ (',' :: '\n' :: (sp ((lvl + 1) * 4) ++
                  itemsC y ys (lvl + 1))), by rw [itemsC, hct]; simp⟩
            obtain ⟨t1, hc1⟩ := hchead
            have hskip : skipWs (('\n' :: sp ((lvl + 1) * 4)) ++
                (itemsC x xs' (lvl + 1) ++ (('\n' :: sp (lvl * 4)) ++ (']' :: rest)))) =
                c0 :: (t1 ++ (('\n' :: sp (lvl * 4)) ++ (']' :: rest))) := by
              rw [skipWs_ws_append (nl_sp_all_ws _), hc1, List.cons_append,
                skipWs_cons_not hws0]
            rw [hskip]
            simp only [hrb0, Bool.false_eq_true, if_false]
            have hPI := (IH m (by omega)).1 x xs' (lvl + 1) ('\n' :: sp ((lvl + 1) * 4))
              ('\n' :: sp (lvl * 4)) rest hwv.1 hwv.2 (nl_sp_all_ws _)
              (nl_sp_all_ws _) (by omega)
            rw [hPI]
    | jobj fs =>
        cases fs with
        | nil =>
            rw [dumpsC]
            simp only [List.cons_append, List.nil_append]
            simp only [parseVal, show (('\x7b' : Char) == 'n') = false from rfl,
              show (('\x7b' : Char) == 't') = false from rfl,
              show (('\x7b' : Char) == 'f') = false from rfl,
              show (('\x7b' : Char) == '"') = false from rfl,
              show (('\x7b' : Char) == '[') = false from rfl,
              show (('\x7b' : Char) == '\x7b') = true from rfl,
              Bool.false_eq_true, if_false, if_true]
            rw [skipWs_cons_not (show isWs '\x7d' = false by decide)]
            simp only [show (('\x7d' : Char) == '\x7d') = true from rfl, if_true]
        | cons f fs' =>
            obtain ⟨k, v2⟩ := f
            rw [reqV] at hreq
            rw [wfJ, wfF, Bool.and_eq_true, Bool.and_eq_true] at hwv
            rw [dumpsC]
            have harr : ('\x7b' :: '\n' :: (sp ((lvl + 1) * 4) ++
                (fieldsC (k, v2) fs' (lvl + 1) ++
                  ('\n' :: (sp (lvl * 4) ++ ['\x7d']))))) ++ rest =
                '\x7b' :: (('\n' :: sp ((lvl + 1) * 4)) ++
                  (fieldsC (k, v2) fs' (lvl + 1) ++
                    (('\n' :: sp (lvl * 4)) ++ ('\x7d' :: rest)))) := by
              simp [List.append_assoc]
            rw [harr]
            simp only [parseVal, show (('\x7b' : Char) == 'n') = false from rfl,
              show (('\x7b' : Char) == 't') = false from rfl,
              show (('\x7b' : Char) == 'f') = false from rfl,
              show (('\x7b' : Char) == '"') = false from rfl,
              show (('\x7b' : Char) == '[') = false from rfl,
              show (('\x7b' : Char) == '\x7b') = true from rfl,
              Bool.false_eq_true, if_false, if_true]
            have hfhead : ∃ t, fieldsC (k, v2) fs' (lvl + 1) = '"' :: t := by
              cases fs' with
              | nil => exact ⟨_, by rw [fieldsC]⟩
              | cons g gs =>
                  exact ⟨(k.data ++ ('"' :: ':' :: ' ' :: dumpsC v2 (lvl + 1))) ++
                    (',' :: '\n' :: (sp ((lvl + 1) * 4) ++ fieldsC g gs (lvl + 1))),
                    by rw [fieldsC]; simp⟩
            obtain ⟨t, hct⟩ := hfhead
            have hskip : skipWs (('\n' :: sp ((lvl + 1) * 4)) ++
                (fieldsC (k, v2) fs' (lvl + 1) ++
                  (('\n' :: sp (lvl * 4)) ++ ('\x7d' :: rest)))) =
                '"' :: (t ++ (('\n' :: sp (lvl * 4)) ++ ('\x7d' :: rest))) := by
              rw [skipWs_ws_append (nl_sp_all_ws _), hct, List.cons_append,
                skipWs_cons_not (show isWs '"' = false by decide)]
            rw [hskip]
            simp only [show (('"' : Char) == '\x7d') = false from rfl,
              Bool.false_eq_true, if_false]
            have hPF := (IH m (by omega)).2.1 k v2 fs' (lvl + 1)
              ('\n' :: sp ((lvl + 1) * 4)) ('\n' :: sp (lvl * 4)) rest
              hwv.1.1 hwv.1.2 hwv.2 (nl_sp_all_ws _) (nl_sp_all_ws _) (by omega)
            rw [hPF]
  · -- parseJ
    intro v lvl pre rest hwv hpre hrest hreq
    cases n with
    | zero => have := one_le_reqV v; omega
    | succ m =>
    simp only [parseJ]
    rw [skipWs_pre_dumpsC hpre]
    exact (IH m (by omega)).2.2.1 v lvl rest hwv hrest (by omega)

/-- Nested induction principle for `JVal`: to prove a property of every
value it suffices to prove it for the leaves and, for arrays and objects,
assuming it for every element / field value. -/
theorem JVal.inductionOn (P : JVal → Prop)
    (hnull : P .jnull) (hbool : ∀ b, P (.jbool b)) (hnum : ∀ n, P (.jnum n))
    (hstr : ∀ s, P (.jstr s))
    (harr : ∀ xs, (∀ x ∈ xs, P x) → P (.jarr xs))
    (hobj : ∀ fs, (∀ kv ∈ fs, P kv.2) → P (.jobj fs)) :
    ∀ v, P v := by
  have H : ∀ N : Nat, ∀ v : JVal, sizeOf v ≤ N → P v := by
    intro N
    induction N with
    | zero =>
        intro v hv
        cases v <;> simp at hv
    | succ N ihN =>
        intro v hv
        cases v with
        | jnull => exact hnull
        | jbool b => exact hbool b
        | jnum n => exact hnum n
        | jstr s => exact hstr s
        | jarr xs =>
            apply harr
            intro x hx
            apply ihN
            have h1 : sizeOf x < sizeOf xs := List.sizeOf_lt_of_mem hx
            have h2 : sizeOf (JVal.jarr xs) = 1 + sizeOf xs := by simp
            omega
        | jobj fs =>
            apply hobj
            intro kv hkv
            apply ihN
            have h1 : sizeOf kv < sizeOf fs := List.sizeOf_lt_of_mem hkv
            have h2 : sizeOf kv.2 < sizeOf kv := by
              obtain ⟨a, b⟩ := kv
              simp
              try omega
            have h3 : sizeOf (JVal.jobj fs) = 1 + sizeOf fs := by simp
            omega
  intro v
  exact H (sizeOf v) v le_rfl

theorem one_le_length_intChars (n : Int) : 1 ≤ (intChars n).length := by
  by_cases hneg : n < 0
  · rw [intChars, if_pos hneg]
    simp
  · rw [intChars, if_neg hneg]
    cases hnc : natChars n.natAbs with
    | nil => cases natChars_ne_nil n.natAbs hnc
    | cons c cs => simp

/-- The serialized form is at least as long as the fuel the parser needs. -/
theorem req_le_len : ∀ v : JVal, ∀ lvl : Nat,
    reqV v ≤ (dumpsC v lvl).length := by
  have auxI : ∀ (xs : List JVal) (x : JVal) (lvl : Nat),
      (∀ el ∈ x :: xs, ∀ l, reqV el ≤ (dumpsC el l).length) →
      reqI x xs ≤ (itemsC x xs lvl).length + 2 := by
    intro xs
    induction xs with
    | nil =>
        intro x lvl h
        rw [reqI, itemsC]
        have := h x (List.mem_cons_self x _) lvl
        omega
    | cons y ys ihy =>
        intro x lvl h
        rw [reqI, itemsC]
        have h1 := h x (List.mem_cons_self x _) lvl
        have h2 := ihy y lvl (fun el hel l =>
          h el (List.mem_cons_of_mem x hel) l)
        simp only [List.length_append, List.length_cons]
        omega
  have auxF : ∀ (fs : List (String × JVal)) (k : String) (v : JVal) (lvl : Nat),
      (∀ kv ∈ (k, v) :: fs, ∀ l, reqV kv.2 ≤ (dumpsC kv.2 l).length) →
      reqF (k, v) fs ≤ (fieldsC (k, v) fs lvl).length + 2 := by
    intro fs
    induction fs with
    | nil =>
        intro k v lvl h
        rw [reqF, fieldsC]
        have := h (k, v) (List.mem_cons_self _ _) lvl
        simp only [List.length_cons, List.length_append] at *
        omega
    | cons g gs ihg =>
        intro k v lvl h
        obtain ⟨k2, v2⟩ := g
        rw [reqF, fieldsC]
        have h1 := h (k, v) (List.mem_cons_self _ _) lvl
        have h2 := ihg k2 v2 lvl (fun kv hkv l =>
          h kv (List.mem_cons_of_mem (k, v) hkv) l)
        simp only [List.length_append, List.length_cons] at *
        omega
  intro v
  induction v using JVal.inductionOn with
  | hnull => intro lvl; simp [reqV, dumpsC]
  | hbool b => intro lvl; cases b <;> simp [reqV, dumpsC]
  | hnum n =>
      intro lvl
      simp only [reqV, dumpsC]
      exact one_le_length_intChars n
  | hstr s => intro lvl; simp [reqV, dumpsC]
  | harr xs ih =>
      cases xs with
      | nil => intro lvl; simp [reqV, dumpsC]
      | cons x xs' =>
          intro lvl
          rw [reqV, dumpsC]
          have := auxI xs' x (lvl + 1) (fun el hel l => ih el hel l)
          simp only [List.length_cons, List.length_append]
          omega
  | hobj fs ih =>
      cases fs with
      | nil => intro lvl; simp [reqV, dumpsC]
      | cons f fs' =>
          obtain ⟨k, v2⟩ := f
          intro lvl
          rw [reqV, dumpsC]
          have := auxF fs' k v2 (lvl + 1) (fun kv hkv l => ih kv hkv l)
          simp only [List.length_cons, List.length_append]
          omega

/-- Serialize-then-parse round-trip at the top level: `json.loads` applied
to `json.dumps(v, indent=4)` recovers exactly `v`, for any well-formed
value. -/
theorem loads_dumps (v : JVal) (h : wfJ v = true) : loads (dumps v) = some v := by
  have hdata : (dumps v).data = dumpsC v 0 := rfl
  have hPJ := (parse_roundtrip ((dumpsC v 0).length + 1)).2.2.2 v 0 [] [] h
    (by rfl) (by rfl) (by have := req_le_len v 0; omega)
  simp only [List.nil_append, List.append_nil] at hPJ
  rw [loads, hdata, hPJ]
  rfl

/-! ## Listing helpers -/

theorem renderSize_eq_specRender (q : ℚ) : renderSize q = specRender q := by
  rw [renderSize, specRender]
  by_cases h1 : q ≤ 1
  · rw [if_pos h1, if_neg (by linarith : ¬q > 1024), if_neg (by linarith : ¬q > 1)]
  · by_cases h2 : q ≤ 1024
    · rw [if_neg h1, if_pos h2, if_neg (by linarith : ¬q > 1024),
        if_pos (by linarith : q > 1)]
    · rw [if_neg h1, if_neg h2, if_pos (by linarith : q > 1024)]

theorem getField_mkRec_name (name t url : String) (sz : List JVal) :
    getField [("name", JVal.jstr name), ("size", JVal.jarr sz),
      ("type", JVal.jstr t), ("url", JVal.jstr url)] "name" =
      some (JVal.jstr name) := rfl

theorem getField_mkRec_size (name t url : String) (sz : List JVal) :
    getField [("name", JVal.jstr name), ("size", JVal.jarr sz),
      ("type", JVal.jstr t), ("url", JVal.jstr url)] "size" =
      some (JVal.jarr sz) := rfl

theorem getField_mkRec_type (name t url : String) (sz : List JVal) :
    getField [("name", JVal.jstr name), ("size", JVal.jarr sz),
      ("type", JVal.jstr t), ("url", JVal.jstr url)] "type" =
      some (JVal.jstr t) := rfl

theorem getField_mkRec_url (name t url : String) (sz : List JVal) :
    getField [("name", JVal.jstr name), ("size", JVal.jarr sz),
      ("type", JVal.jstr t), ("url", JVal.jstr url)] "url" =
      some (JVal.jstr url) := rfl

theorem recName_mkRec (name t url : String) (sz : List JVal) :
    recName (mkRec name sz t url) = some name := rfl

theorem recUrl_mkRec (name t url : String) (sz : List JVal) :
    recUrl (mkRec name sz t url) = some url := rfl

theorem recordLine_mkRec_of (name t url : String) (sz : List JVal)
    (d0 d1 d2 : Int) (ds : List Int) (w : Nat)
    (hdims : mapPyInt sz = some (d0 :: d1 :: d2 :: ds))
    (hw : sizeofGet t = some w) :
    recordLine (mkRec name sz t url) =
      some (normalized name,
        renderSize (((d0 * d1 * d2 * (w : Int) : Int) : ℚ) / 1048576)) := by
  simp only [recordLine, mkRec, getField_mkRec_name, getField_mkRec_size,
    getField_mkRec_type, hdims, hw]

theorem recordLine_mkRec_badtype (name t url : String) (sz : List JVal)
    (d0 d1 d2 : Int) (ds : List Int)
    (hdims : mapPyInt sz = some (d0 :: d1 :: d2 :: ds))
    (hw : sizeofGet t = none) :
    recordLine (mkRec name sz t url) = none := by
  simp only [recordLine, mkRec, getField_mkRec_name, getField_mkRec_size,
    getField_mkRec_type, hdims, hw]

theorem recordLine_mkRec_baddims (name t url : String) (sz : List JVal)
    (hdims : mapPyInt sz = none) :
    recordLine (mkRec name sz t url) = none := by
  simp only [recordLine, mkRec, getField_mkRec_name, getField_mkRec_size, hdims]

theorem doList_abort (pre : List JVal) (bad : JVal) (post : List JVal)
    (hpre : ∀ x ∈ pre, (recordLine x).isSome = true)
    (hbad : recordLine bad = none) :
    doList (pre ++ bad :: post) = (pre.filterMap recordLine, false) := by
  induction pre with
  | nil => simp [doList, hbad]
  | cons p ps ih =>
      have hp := hpre p (List.mem_cons_self p ps)
      obtain ⟨l, hl⟩ := Option.isSome_iff_exists.mp hp
      have ihp := ih (fun x hx => hpre x (List.mem_cons_of_mem p hx))
      simp only [List.cons_append, doList, hl, ihp, List.filterMap_cons,
        List.append_eq]

/-! ## Resolver helpers -/

theorem matchKey_of_name {x : JVal} {nm : String} (h : recName x = some nm)
    (d : Option String) :
    matchKey x d = some (some (normalized nm) == d) := by
  rw [matchKey, h]

theorem filterMeta_none_dataset (c : List JVal)
    (h : ∀ x ∈ c, (recName x).isSome = true) :
    filterMeta c none = some [] := by
  induction c with
  | nil => rfl
  | cons x xs ih =>
      obtain ⟨nm, hnm⟩ := Option.isSome_iff_exists.mp (h x (List.mem_cons_self x xs))
      rw [filterMeta, matchKey_of_name hnm,
        ih (fun y hy => h y (List.mem_cons_of_mem x hy))]
      rfl

theorem filterMeta_isSome (c : List JVal) (d : Option String)
    (h : ∀ x ∈ c, (recName x).isSome = true) :
    ∃ l, filterMeta c d = some l := by
  induction c with
  | nil => exact ⟨[], rfl⟩
  | cons x xs ih =>
      obtain ⟨nm, hnm⟩ := Option.isSome_iff_exists.mp (h x (List.mem_cons_self x xs))
      obtain ⟨l, hl⟩ := ih (fun y hy => h y (List.mem_cons_of_mem x hy))
      rw [filterMeta, matchKey_of_name hnm, hl]
      exact ⟨_, rfl⟩

theorem filterMeta_no_match (c : List JVal) (d : String)
    (h : ∀ x ∈ c, ∃ m, recName x = some m ∧ normalized m ≠ d) :
    filterMeta c (some d) = some [] := by
  induction c with
  | nil => rfl
  | cons x xs ih =>
      obtain ⟨m, hm, hne⟩ := h x (List.mem_cons_self x xs)
      rw [filterMeta, matchKey_of_name hm,
        ih (fun y hy => h y (List.mem_cons_of_mem x hy))]
      have : (some (normalized m) == some d) = false := by
        simp [hne]
      rw [this]
      rfl

theorem filterMeta_first_match (pre post : List JVal) (r : JVal) (d nm : String)
    (hn : recName r = some nm) (hmatch : normalized nm = d)
    (hpre : ∀ x ∈ pre, ∃ m, recName x = some m ∧ normalized m ≠ d)
    (hpost : ∀ x ∈ post, (recName x).isSome = true) :
    ∃ l, filterMeta (pre ++ r :: post) (some d) = some (r :: l) := by
  induction pre with
  | nil =>
      obtain ⟨l, hl⟩ := filterMeta_isSome post (some d) hpost
      rw [List.nil_append, filterMeta, matchKey_of_name hn, hl]
      have : (some (normalized nm) == some d) = true := by simp [hmatch]
      rw [this]
      exact ⟨l, rfl⟩
  | cons p ps ih =>
      obtain ⟨m, hm, hne⟩ := hpre p (List.mem_cons_self p ps)
      obtain ⟨l, hl⟩ := ih (fun y hy => hpre y (List.mem_cons_of_mem p hy))
      rw [List.cons_append, filterMeta, matchKey_of_name hm, hl]
      have : (some (normalized m) == some d) = false := by simp [hne]
      rw [this]
      exact ⟨l, rfl⟩

theorem filterMeta_sound (c : List JVal) (d : String) (l : List JVal)
    (h : filterMeta c (some d) = some l) :
    ∀ x ∈ l, ∃ nm, recName x = some nm ∧ normalized nm = d := by
  induction c generalizing l with
  | nil =>
      rw [filterMeta] at h
      cases h
      intro x hx
      cases hx
  | cons y ys ih =>
      rw [filterMeta] at h
      cases hmk : matchKey y (some d) with
      | none => rw [hmk] at h; cases h
      | some b =>
          rw [hmk] at h
          cases hft : filterMeta ys (some d) with
          | none => rw [hft] at h; cases h
          | some t =>
              rw [hft] at h
              cases h
              cases b with
              | false =>
                  simp only [if_false, Bool.false_eq_true]
                  intro x hx
                  exact ih t hft x (by simpa using hx)
              | true =>
                  intro x hx
                  simp only [if_true] at hx
                  rcases List.mem_cons.mp hx with hx | hx
                  · subst hx
                    rw [matchKey] at hmk
                    cases hnm : recName x with
                    | none => rw [hnm] at hmk; cases hmk
                    | some nm =>
                        rw [hnm] at hmk
                        refine ⟨nm, rfl, ?_⟩
                        have : (some (normalized nm) == some d) = true :=
                          Option.some.inj hmk
                        simpa using this
                  · exact ih t hft x hx

theorem resolve_some (catalog : List JVal) (d : String) (meta : JVal)
    (h : resolve catalog (some d) = some (some meta)) :
    ∃ nm, recName meta = some nm ∧ normalized nm = d := by
  rw [resolve] at h
  cases hft : filterMeta catalog (some d) with
  | none => rw [hft] at h; cases h
  | some l =>
      rw [hft, Option.map_some'] at h
      have hh : l.head? = some meta := Option.some.inj h
      cases l with
      | nil => cases hh
      | cons a t =>
          have ha : a = meta := Option.some.inj hh
          subst ha
          exact filterMeta_sound catalog d (a :: t) hft a (List.mem_cons_self a t)

/-! ## Claims -/

/-- C1 (counterexample): a record whose byte size is exactly 1 MB
(1024 × 1024 × 1 uint8 voxels, so `byte_size_mb = 1`) is rendered as the
literal `(<1 MB)` by line 28's `size > 1` test, not in the numeric MB form
the claim asserts for `byte_size_mb = 1`. -/
theorem c1_counterexample :
    recordLine oneMBRec = some ("one_mb", SizeRendering.lt1) ∧
    ((1024 * 1024 * 1 * ((1 : Nat) : Int) : Int) : ℚ) / 1048576 = 1 ∧
    SizeRendering.lt1 ≠ SizeRendering.mb 1 := by
  refine ⟨?_, by norm_num, by decide⟩
  rw [show oneMBRec = mkRec "One MB" [.jnum 1024, .jnum 1024, .jnum 1] "uint8"
    "https://host/one_mb.raw" from rfl]
  rw [recordLine_mkRec_of "One MB" "uint8" "https://host/one_mb.raw"
    [.jnum 1024, .jnum 1024, .jnum 1] 1024 1024 1 [] 1 rfl rfl]
  have h1 : (((1024 * 1024 * 1 * ((1 : Nat) : Int) : Int) : ℚ) / 1048576) = 1 := by
    norm_num
  rw [h1]
  rw [show renderSize 1 = SizeRendering.lt1 from by rw [renderSize]; norm_num]
  rfl

/-- C1 (amended): in list mode the size string printed for a record is the
literal `(<1 MB)` when `byte_size_mb ≤ 1` (including exactly 1), the numeric
MB form when `1 < byte_size_mb ≤ 1024`, and the GB form when
`byte_size_mb > 1024`: the code's rendering of line 28 coincides pointwise
with this policy (`specRender`), and every listed record's size string is
produced by it. -/
theorem c1_amended :
    (∀ q : ℚ, renderSize q = specRender q) ∧
    (∀ (name t url : String) (sz : List JVal) (d0 d1 d2 : Int)
        (ds : List Int) (w : Nat),
      mapPyInt sz = some (d0 :: d1 :: d2 :: ds) → sizeofGet t = some w →
      recordLine (mkRec name sz t url) =
        some (normalized name,
          specRender (((d0 * d1 * d2 * (w : Int) : Int) : ℚ) / 1048576))) := by
  refine ⟨renderSize_eq_specRender, ?_⟩
  intro name t url sz d0 d1 d2 ds w hdims hw
  rw [recordLine_mkRec_of name t url sz d0 d1 d2 ds w hdims hw,
    renderSize_eq_specRender]

/-- C1 (witness): the amended policy applied at concrete inputs. -/
theorem c1_amended_witness :
    renderSize 1 = specRender 1 ∧
    recordLine (mkRec "Boston Teapot" [.jnum 256, .jnum 256, .jnum 178] "uint8"
        "https://host/bt.raw") =
      some (normalized "Boston Teapot",
        specRender (((256 * 256 * 178 * ((1 : Nat) : Int) : Int) : ℚ) / 1048576)) :=
  ⟨c1_amended.1 1,
    c1_amended.2 "Boston Teapot" "uint8" "https://host/bt.raw" _
      256 256 178 [] 1 rfl rfl⟩

/-- C2 (counterexample): the mutually exclusive group is not `required`, so
an invocation with neither `-l` nor `-d` is accepted by the parser
(`do_list = False`, `dataset = None`) rather than rejected, and the program
then proceeds down the fetch-mode path, dying at the resolver with the
not-found `IndexError` — contradicting "exactly one must be supplied" and
"rejected rather than performing either mode". -/
theorem c2_counterexample :
    parseArgs false none = Except.ok ⟨false, none⟩ ∧
    (mainRun false none [fooRec] emptyFS noNet).err = some "NotFoundError" :=
  ⟨rfl, rfl⟩

/-- C2 (amended): `-l` and `-d` are mutually exclusive — supplying both is
an argparse error before any network traffic — but neither is required: an
invocation with neither flag parses successfully as
`(do_list = False, dataset = None)` and proceeds in fetch mode, where
`None` matches no record and the run aborts with the not-found error,
touching no files and issuing no payload request. -/
theorem c2_amended :
    (∀ s : String, parseArgs true (some s) =
      Except.error "argument -d/--dataset: not allowed with argument -l/--list") ∧
    parseArgs false none = Except.ok ⟨false, none⟩ ∧
    (∀ (catalog : List JVal) (fs : FS) (net : Net),
      (∀ x ∈ catalog, (recName x).isSome = true) →
      (mainRun false none catalog fs net).err = some "NotFoundError" ∧
      (mainRun false none catalog fs net).fs = fs ∧
      (mainRun false none catalog fs net).requests = []) := by
  refine ⟨fun s => rfl, rfl, ?_⟩
  intro catalog fs net hnames
  have hres : resolve catalog none = some none := by
    rw [resolve, filterMeta_none_dataset catalog hnames]
    rfl
  have hmr : mainRun false none catalog fs net = fetchMode fs net catalog none := rfl
  rw [hmr]
  simp [fetchMode, hres]

/-- C2 (witness): the amended behavior at concrete inputs. -/
theorem c2_amended_witness :
    parseArgs true (some "magnetic_reconnection") =
      Except.error "argument -d/--dataset: not allowed with argument -l/--list" ∧
    (mainRun false none [fooRec, oneMBRec] emptyFS noNet).err =
      some "NotFoundError" :=
  ⟨c2_amended.1 "magnetic_reconnection",
    (c2_amended.2.2 [fooRec, oneMBRec] emptyFS noNet
      (by intro x hx; fin_cases hx <;> rfl)).1⟩

/-- C3: the Volume Fetcher's skip guard: when a file named
`basename(url)` already exists, the filesystem is untouched, zero payload
requests are issued and the skip message is printed; otherwise one GET
against `url` is issued and the full response body is written to that
filename (all other files unchanged). -/
theorem c3_volume_fetcher (fs : FS) (net : Net) (url : String) :
    ((fs (basename url)).isSome = true →
      fetchVolume fs net url = ⟨fs, [], [skipMsg url], none⟩) ∧
    (∀ data : List Nat, fs (basename url) = none → net url = some data →
      (fetchVolume fs net url).requests = [url] ∧
      (fetchVolume fs net url).fs (basename url) = some (.bin data) ∧
      (∀ f, f ≠ basename url → (fetchVolume fs net url).fs f = fs f) ∧
      (fetchVolume fs net url).err = none) := by
  constructor
  · intro h
    obtain ⟨b, hb⟩ := Option.isSome_iff_exists.mp h
    simp only [fetchVolume, hb]
  · intro data hfile hnet
    have hfv : fetchVolume fs net url =
        ⟨fun f => if f = basename url then some (.bin data) else fs f, [url],
          [fetchMsg url], none⟩ := by
      simp only [fetchVolume, hfile, hnet]
    rw [hfv]
    exact ⟨rfl, by simp, fun f hf => by simp [hf], rfl⟩

/-- C3 (witness): skip on an existing `foo_bar.raw`, and a fresh download
writing the response body. -/
theorem c3_witness :
    fetchVolume fsWithFile noNet "https://host/foo_bar.raw" =
      ⟨fsWithFile, [], [skipMsg "https://host/foo_bar.raw"], none⟩ ∧
    (fetchVolume emptyFS oneNet "https://host/foo_bar.raw").requests =
      ["https://host/foo_bar.raw"] ∧
    (fetchVolume emptyFS oneNet "https://host/foo_bar.raw").fs
      (basename "https://host/foo_bar.raw") = some (.bin [7, 7, 7]) :=
  ⟨(c3_volume_fetcher fsWithFile noNet "https://host/foo_bar.raw").1 rfl,
    ((c3_volume_fetcher emptyFS oneNet "https://host/foo_bar.raw").2
      [7, 7, 7] rfl rfl).1,
    ((c3_volume_fetcher emptyFS oneNet "https://host/foo_bar.raw").2
      [7, 7, 7] rfl rfl).2.1⟩

/-- C4: the Dataset Resolver returns the first record (in catalog order)
whose normalized name equals the supplied string, even when later records
also match (no ambiguity error is ever raised), and the match predicate of
line 31 holds exactly when the normalized name equals the supplied string —
plain string equality, hence case-sensitive on the supplied string. -/
theorem c4_resolver_first_match :
    (∀ (pre post : List JVal) (r : JVal) (d nm : String),
      recName r = some nm → normalized nm = d →
      (∀ x ∈ pre, ∃ m, recName x = some m ∧ normalized m ≠ d) →
      (∀ x ∈ post, (recName x).isSome = true) →
      resolve (pre ++ r :: post) (some d) = some (some r)) ∧
    (∀ (x : JVal) (nm d : String), recName x = some nm →
      (matchKey x (some d) = some true ↔ normalized nm = d)) := by
  constructor
  · intro pre post r d nm hn hmatch hpre hpost
    obtain ⟨l, hl⟩ := filterMeta_first_match pre post r d nm hn hmatch hpre hpost
    rw [resolve, hl, Option.map_some']
    rfl
  · intro x nm d h
    rw [matchKey_of_name h]
    constructor
    · intro hh
      simpa using Option.some.inj hh
    · intro hh
      rw [hh]
      simp

/-- C4 (witness): with a non-matching record before and a duplicate match
after, the resolver returns the first match and no error. -/
theorem c4_witness :
    resolve ([otherRec] ++ fooRec :: [fooDupRec]) (some "foo_bar") =
      some (some fooRec) ∧
    (matchKey fooRec (some "foo_bar") = some true ↔
      normalized "Foo Bar" = "foo_bar") :=
  ⟨c4_resolver_first_match.1 [otherRec] [fooDupRec] fooRec "foo_bar" "Foo Bar"
      rfl rfl
      (by
        intro x hx
        fin_cases hx
        exact ⟨"Other", rfl, by decide⟩)
      (by intro x hx; fin_cases hx; rfl),
    c4_resolver_first_match.2 fooRec "Foo Bar" "foo_bar" rfl⟩

/-- C5: the Metadata Persister writes the record serialized as indented
JSON (`dumps`) to `{args.dataset}.json`, unconditionally overwriting
whatever was there (the prior filesystem is universally quantified) and
touching no other file; and under the resolver's exact-match precondition
the dataset string — hence the filename stem — equals the matched record's
normalized name. -/
theorem c5_metadata_persister :
    (∀ (fs : FS) (d : String) (meta : JVal),
      persistMeta fs d meta (d ++ ".json") = some (.text (dumps meta)) ∧
      ∀ f, f ≠ d ++ ".json" → persistMeta fs d meta f = fs f) ∧
    (∀ (catalog : List JVal) (d : String) (meta : JVal),
      resolve catalog (some d) = some (some meta) →
      ∃ nm, recName meta = some nm ∧ normalized nm = d) := by
  constructor
  · intro fs d meta
    exact ⟨by simp [persistMeta], fun f hf => by simp [persistMeta, hf]⟩
  · intro catalog d meta h
    exact resolve_some catalog d meta h

/-- C5 (witness): the persist step at concrete inputs; the resolved record's
normalized name is the filename stem. -/
theorem c5_witness :
    persistMeta fsWithFile "foo_bar" fooRec ("foo_bar" ++ ".json") =
      some (.text (dumps fooRec)) ∧
    (∃ nm, recName fooRec = some nm ∧ normalized nm = "foo_bar") :=
  ⟨(c5_metadata_persister.1 fsWithFile "foo_bar" fooRec).1,
    c5_metadata_persister.2 [fooRec] "foo_bar" fooRec rfl⟩

/-- C6: round-trip — parsing the JSON text the Metadata Persister writes
(`dumps meta`, the content stored at `{dataset}.json`) yields the record
unchanged, field for field, including fields the program never interprets;
stated for well-formed records (strings needing no escape sequences,
integral numbers), which covers the serializer as embedded. -/
theorem c6_metadata_roundtrip (meta : JVal) (h : wfJ meta = true) :
    loads (dumps meta) = some meta ∧
    ∀ (fs : FS) (d : String),
      persistMeta fs d meta (d ++ ".json") = some (.text (dumps meta)) :=
  ⟨loads_dumps meta h, fun fs d => by simp [persistMeta]⟩

/-- C6 (witness): the round-trip at a concrete record carrying an extra
uninterpreted field. -/
theorem c6_witness :
    wfJ (JVal.jobj [("name", .jstr "Foo Bar"),
      ("size", .jarr [.jnum 256, .jnum 256, .jnum 256]),
      ("type", .jstr "uint8"), ("url", .jstr "https://host/foo_bar.raw"),
      ("extra", .jbool true)]) = true ∧
    loads (dumps (JVal.jobj [("name", .jstr "Foo Bar"),
      ("size", .jarr [.jnum 256, .jnum 256, .jnum 256]),
      ("type", .jstr "uint8"), ("url", .jstr "https://host/foo_bar.raw"),
      ("extra", .jbool true)])) =
      some (JVal.jobj [("name", .jstr "Foo Bar"),
        ("size", .jarr [.jnum 256, .jnum 256, .jnum 256]),
        ("type", .jstr "uint8"), ("url", .jstr "https://host/foo_bar.raw"),
        ("extra", .jbool true)]) := by
  have hwf : wfJ (JVal.jobj [("name", .jstr "Foo Bar"),
      ("size", .jarr [.jnum 256, .jnum 256, .jnum 256]),
      ("type", .jstr "uint8"), ("url", .jstr "https://host/foo_bar.raw"),
      ("extra", .jbool true)]) = true := by
    simp [wfJ, wfF, wfL]
    decide
  exact ⟨hwf, (c6_metadata_roundtrip _ hwf).1⟩

/-- C7: the byte-width lookup of line 10 succeeds exactly on the five
catalog element types, with widths 1, 2, 2, 4, 8; any other type makes the
lookup fail (`KeyError`, the spec's `UnknownTypeError`), and a record with
such a type aborts the listing at that record: the lines before it are all
that is produced, nothing after it is processed, and the run fails. -/
theorem c7_sizeof_lookup :
    (sizeofGet "uint8" = some 1 ∧ sizeofGet "uint16" = some 2 ∧
      sizeofGet "int16" = some 2 ∧ sizeofGet "float32" = some 4 ∧
      sizeofGet "float64" = some 8) ∧
    (∀ t : String, t ≠ "uint8" → t ≠ "uint16" → t ≠ "int16" →
      t ≠ "float32" → t ≠ "float64" → sizeofGet t = none) ∧
    (∀ (pre post : List JVal) (name t url : String) (d0 d1 d2 : Int),
      sizeofGet t = none →
      (∀ x ∈ pre, (recordLine x).isSome = true) →
      doList (pre ++ mkRec name [.jnum d0, .jnum d1, .jnum d2] t url :: post) =
        (pre.filterMap recordLine, false)) := by
  refine ⟨⟨rfl, rfl, rfl, rfl, rfl⟩, ?_, ?_⟩
  · intro t h1 h2 h3 h4 h5
    have e : ∀ s : String, s ≠ t → (s == t) = false := by
      intro s hs
      cases hb : s == t with
      | false => rfl
      | true => exact absurd (eq_of_beq hb) hs
    rw [sizeofGet, sizeofTable]
    simp only [List.find?, e "uint8" (Ne.symm h1), e "uint16" (Ne.symm h2),
      e "int16" (Ne.symm h3), e "float32" (Ne.symm h4),
      e "float64" (Ne.symm h5)]
  · intro pre post name t url d0 d1 d2 hw hpre
    exact doList_abort pre _ post hpre
      (recordLine_mkRec_badtype name t url _ d0 d1 d2 [] rfl hw)

/-- C7 (witness): the table at its five keys, an unknown type (`int32`)
failing, and a listing aborted at the bad record with only the prior line
emitted. -/
theorem c7_witness :
    sizeofGet "uint8" = some 1 ∧ sizeofGet "int32" = none ∧
    doList ([fooRec] ++ mkRec "Bad Type" [.jnum 1, .jnum 1, .jnum 1] "int32"
        "https://host/bad.raw" :: [oneMBRec]) =
      ([fooRec].filterMap recordLine, false) :=
  ⟨c7_sizeof_lookup.1.1,
    c7_sizeof_lookup.2.1 "int32" (by decide) (by decide) (by decide)
      (by decide) (by decide),
    c7_sizeof_lookup.2.2 [fooRec] [oneMBRec] "Bad Type" "int32"
      "https://host/bad.raw" 1 1 1
      (c7_sizeof_lookup.2.1 "int32" (by decide) (by decide) (by decide)
        (by decide) (by decide))
      (by intro x hx; fin_cases hx; rfl)⟩

/-- C8: in fetch mode, when no record's normalized name equals the supplied
dataset string, the run aborts with the not-found error (the `IndexError`
of `[...][0]`), writing no metadata file, no volume file (the filesystem is
returned unchanged), issuing no payload request and printing nothing. -/
theorem c8_not_found (catalog : List JVal) (fs : FS) (net : Net) (d : String)
    (hnomatch : ∀ x ∈ catalog, ∃ m, recName x = some m ∧ normalized m ≠ d) :
    (fetchMode fs net catalog (some d)).err = some "NotFoundError" ∧
    (fetchMode fs net catalog (some d)).fs = fs ∧
    (fetchMode fs net catalog (some d)).requests = [] ∧
    (fetchMode fs net catalog (some d)).output = [] := by
  have hres : resolve catalog (some d) = some none := by
    rw [resolve, filterMeta_no_match catalog d hnomatch]
    rfl
  simp [fetchMode, hres]

/-- C8 (witness): fetching `nope` from a one-record catalog fails with the
not-found error and leaves the directory untouched. -/
theorem c8_witness :
    (fetchMode fsWithFile noNet [fooRec] (some "nope")).err =
      some "NotFoundError" ∧
    (fetchMode fsWithFile noNet [fooRec] (some "nope")).fs = fsWithFile :=
  ⟨(c8_not_found [fooRec] fsWithFile noNet "nope"
      (by intro x hx; fin_cases hx; exact ⟨"Foo Bar", rfl, by decide⟩)).1,
    (c8_not_found [fooRec] fsWithFile noNet "nope"
      (by intro x hx; fin_cases hx; exact ⟨"Foo Bar", rfl, by decide⟩)).2.1⟩

/-- C9: the metadata JSON is written before the volume download is
attempted, so when the payload GET fails (transport error), the
`{dataset}.json` file already holds the serialized record: the pair of
output files is not atomic. -/
theorem c9_metadata_before_volume (catalog : List JVal) (fs : FS) (net : Net)
    (d u : String) (meta : JVal)
    (hres : resolve catalog (some d) = some (some meta))
    (hurl : recUrl meta = some u)
    (hne : basename u ≠ d ++ ".json")
    (hnofile : fs (basename u) = none)
    (hnet : net u = none) :
    (fetchMode fs net catalog (some d)).err = some "TransportError" ∧
    (fetchMode fs net catalog (some d)).fs (d ++ ".json") =
      some (.text (dumps meta)) ∧
    (fetchMode fs net catalog (some d)).requests = [u] := by
  have h1 : persistMeta fs d meta (basename u) = none := by
    simp [persistMeta, hne, hnofile]
  simp only [fetchMode, hres, hurl, fetchVolume, h1, hnet]
  refine ⟨?_, ?_, ?_⟩ <;> simp [persistMeta]

/-- C9 (witness): with the network down, fetching `foo_bar` still leaves
`foo_bar.json` on disk while the run fails with the transport error. -/
theorem c9_witness :
    (fetchMode emptyFS noNet [fooRec] (some "foo_bar")).err =
      some "TransportError" ∧
    (fetchMode emptyFS noNet [fooRec] (some "foo_bar")).fs
      ("foo_bar" ++ ".json") = some (.text (dumps fooRec)) :=
  ⟨(c9_metadata_before_volume [fooRec] emptyFS noNet "foo_bar"
      "https://host/foo_bar.raw" fooRec rfl rfl (by decide) rfl rfl).1,
    (c9_metadata_before_volume [fooRec] emptyFS noNet "foo_bar"
      "https://host/foo_bar.raw" fooRec rfl rfl (by decide) rfl rfl).2.1⟩

/-- C10: each dimension goes through `int()` before the byte-size product,
so a record whose dimensions are decimal integer strings produces exactly
the same listing line as the same record with native integer dimensions,
while a non-numeric dimension string is a fatal error that aborts the
listing at that record. -/
theorem c10_int_coercion :
    (∀ (name t url : String) (d0 d1 d2 : Int),
      recordLine (mkRec name
        [.jstr (intStr d0), .jstr (intStr d1), .jstr (intStr d2)] t url) =
      recordLine (mkRec name [.jnum d0, .jnum d1, .jnum d2] t url)) ∧
    (∀ s : String, parseIntStr s = none →
      ∀ (name t url : String) (d1 d2 : Int) (pre post : List JVal),
      (∀ x ∈ pre, (recordLine x).isSome = true) →
      doList (pre ++ mkRec name [.jstr s, .jnum d1, .jnum d2] t url :: post) =
        (pre.filterMap recordLine, false)) := by
  constructor
  · intro name t url d0 d1 d2
    have hdims1 : mapPyInt [.jstr (intStr d0), .jstr (intStr d1),
        .jstr (intStr d2)] = some (d0 :: d1 :: d2 :: []) := by
      simp [mapPyInt, pyInt, parseIntStr_intStr]
    have hdims2 : mapPyInt [.jnum d0, .jnum d1, .jnum d2] =
        some (d0 :: d1 :: d2 :: []) := rfl
    cases hw : sizeofGet t with
    | some w =>
        rw [recordLine_mkRec_of name t url _ d0 d1 d2 [] w hdims1 hw,
          recordLine_mkRec_of name t url _ d0 d1 d2 [] w hdims2 hw]
    | none =>
        rw [recordLine_mkRec_badtype name t url _ d0 d1 d2 [] hdims1 hw,
          recordLine_mkRec_badtype name t url _ d0 d1 d2 [] hdims2 hw]
  · intro s hs name t url d1 d2 pre post hpre
    have hdims : mapPyInt [.jstr s, .jnum d1, .jnum d2] = none := by
      simp [mapPyInt, pyInt, hs]
    exact doList_abort pre _ post hpre
      (recordLine_mkRec_baddims name t url _ hdims)

/-- C10 (witness): string dimensions `"256"` etc. list identically to the
integer record, and a `"abc"` dimension aborts the listing. -/
theorem c10_witness :
    recordLine (mkRec "Foo Bar"
      [.jstr (intStr 256), .jstr (intStr 256), .jstr (intStr 256)] "uint8"
      "https://host/foo_bar.raw") =
    recordLine (mkRec "Foo Bar" [.jnum 256, .jnum 256, .jnum 256] "uint8"
      "https://host/foo_bar.raw") ∧
    parseIntStr "abc" = none ∧
    doList ([] ++ mkRec "Bad Dim" [.jstr "abc", .jnum 1, .jnum 1] "uint8"
        "https://host/bd.raw" :: [fooRec]) =
      (([] : List JVal).filterMap recordLine, false) :=
  ⟨c10_int_coercion.1 "Foo Bar" "uint8" "https://host/foo_bar.raw" 256 256 256,
    rfl,
    c10_int_coercion.2 "abc" rfl "Bad Dim" "uint8" "https://host/bd.raw" 1 1
      [] [fooRec] (by intro x hx; cases hx)⟩

end FetchScivis
